import Mathlib

/-!
Verification of the read-only movie analytics core of `app_streamlit.py`.

The embedding models the Redis store as a snapshot (`Store`): a set-membership
listing, hash-field storage and sorted indexes (each sorted index is the list
of (member, score) pairs in the descending-score order the store returns).
Every core read function is translated from the source; each returns its
result together with the list of store commands (`Cmd`) it issues, so that
frame and idempotence properties are about a real command semantics
(`applyCmd` gives write commands real semantics; reads leave the store as is).

Python-level conventions modelled here:
 * strings are Lean `String`s (the connection decodes responses to text);
 * `float(...)` on text is `pyFloat?` (decimal literals, optional sign and
   fractional part; failure is `none`), Python floats are `Rat`;
 * Python `int` arguments are `Int`;
 * truthiness of an optional string (`x or d`) is `pyOr`;
 * `str.strip()` is `pystrip`, `str.lower()` is `pylower`,
   substring containment (`in`) is `pyIn`;
 * bounded loops are written with an explicit structural fuel that is chosen
   large enough to never be exhausted, so that all definitions compute.
-/

/-- Strip leading and trailing whitespace from a character list
(models Python `str.strip()` with no argument). -/
def stripChars (cs : List Char) : List Char :=
  ((cs.dropWhile Char.isWhitespace).reverse.dropWhile Char.isWhitespace).reverse

/-- Python `str.strip()`. -/
def pystrip (s : String) : String := String.mk (stripChars s.data)

/-- Python `str.lower()`: lower-case every character. -/
def pylower (s : String) : String := String.mk (s.data.map Char.toLower)

/-- All characters are decimal digits. -/
def allDigits (cs : List Char) : Bool := cs.all Char.isDigit

/-- Decimal digits to a natural number. -/
def digitsToNat (cs : List Char) : Nat :=
  cs.foldl (fun n c => n * 10 + (c.toNat - 48)) 0

/-- Unsigned decimal literal (optionally with a fractional part) to a
rational, `none` when malformed. The value of `ddd.fff` is the rational
`(ddd * 10 ^ |fff| + fff) / 10 ^ |fff|`. -/
def parseUnsigned (cs : List Char) : Option Rat :=
  let intp := cs.takeWhile (fun c => c ≠ '.')
  let restp := cs.dropWhile (fun c => c ≠ '.')
  match restp with
  | [] => if intp ≠ [] ∧ allDigits intp then some (mkRat (digitsToNat intp) 1) else none
  | _ :: frac =>
    if (intp ≠ [] ∨ frac ≠ []) ∧ allDigits intp ∧ allDigits frac then
      some (mkRat (digitsToNat intp * 10 ^ frac.length + digitsToNat frac) (10 ^ frac.length))
    else none

/-- Models Python's builtin `float(text)` on decimal literals: surrounding
whitespace is ignored, an optional sign is accepted, and any failure to
parse is `none` (in Python, a raised `ValueError`). -/
def pyFloat? (s : String) : Option Rat :=
  match stripChars s.data with
  | [] => none
  | c :: rest =>
    if c = '-' then (parseUnsigned rest).map (fun q => -q)
    else if c = '+' then parseUnsigned rest
    else parseUnsigned (c :: rest)

/-- Models Python's builtin `int(...)` on a float: truncation toward zero. -/
def pytrunc (q : Rat) : Int := Int.tdiv q.num (q.den : Int)

/-- Python `x or d` for an optional/empty string `x` (None and "" are falsy). -/
def pyOr (v : Option String) (d : String) : String :=
  match v with
  | none => d
  | some s => if s = "" then d else s

/-- Contiguous-sublist test on character lists. -/
def subStr (n : List Char) : List Char → Bool
  | [] => n.isEmpty
  | c :: rest => n.isPrefixOf (c :: rest) || subStr n rest

/-- Python `needle in hay` on strings: substring containment. -/
def pyIn (needle hay : String) : Bool := subStr needle.data hay.data

/-- Python list slice `l[:n]` (negative `n` drops `-n` items from the end). -/
def pySliceTo (l : List α) (n : Int) : List α :=
  if n < 0 then l.take (l.length - n.natAbs) else l.take n.toNat

/-- Parse a `YYYY-MM-DD` date string into its 8-digit `YYYYMMDD` integer
encoding; `none` when the string is not in that shape. -/
def parseYYYYMMDD (s : String) : Option Int :=
  match s.data with
  | [y1, y2, y3, y4, '-', m1, m2, '-', d1, d2] =>
    if allDigits [y1, y2, y3, y4] ∧ allDigits [m1, m2] ∧ allDigits [d1, d2] then
      some ((digitsToNat [y1, y2, y3, y4] * 10000 + digitsToNat [m1, m2] * 100 +
        digitsToNat [d1, d2] : Nat) : Int)
    else none
  | _ => none

/-- Split a list into contiguous chunks of at most `bs` elements, with a
structural fuel (models `range(0, len(members), batch_size)` slicing for a
positive `batch_size`; fuel `xs.length` always suffices then). -/
def chunkFuel (bs : Nat) : Nat → List α → List (List α)
  | _, [] => []
  | 0, _ :: _ => []
  | fuel + 1, x :: xs => ((x :: xs).take bs) :: chunkFuel bs fuel ((x :: xs).drop bs)

/-- Contiguous chunks of at most `bs` elements, in order. -/
def chunkList (bs : Nat) (xs : List α) : List (List α) := chunkFuel bs xs.length xs

/-- The store snapshot: set listings, hash fields, and sorted indexes.
A sorted index is listed as the (member, score) pairs in the
descending-score order the store returns them in. -/
structure Store where
  sets : String → List String
  hashes : String → String → Option String
  zsets : String → List (String × Rat)

/-- A store command. The core issues only the read commands; write commands
are included so that leaving the store unchanged is a real property of
`applyCmd`, not a vacuity of the model. -/
inductive Cmd where
  | smembers (key : String)
  | hget (key field : String)
  | hmget (key : String) (fields : List String)
  | zrevrange (key : String) (start stop : Int)
  | zrevrangebyscore (key : String) (minScore : Rat) (offset num : Int)
  | hset (key field value : String)
  | sadd (key member : String)
  | zadd (key member : String) (score : Rat)
  | del (key : String)
deriving DecidableEq

/-- Is the command one of the read-only commands? -/
def Cmd.isRead : Cmd → Bool
  | .smembers _ => true
  | .hget _ _ => true
  | .hmget _ _ => true
  | .zrevrange _ _ _ => true
  | .zrevrangebyscore _ _ _ _ => true
  | .hset _ _ _ => false
  | .sadd _ _ => false
  | .zadd _ _ _ => false
  | .del _ => false

/-- Effect of a command on the store: reads leave it unchanged, writes
update the targeted entry. -/
def applyCmd (st : Store) : Cmd → Store
  | .smembers _ => st
  | .hget _ _ => st
  | .hmget _ _ => st
  | .zrevrange _ _ _ => st
  | .zrevrangebyscore _ _ _ _ => st
  | .hset k f v =>
    { st with hashes := fun k' f' => if k' = k ∧ f' = f then some v else st.hashes k' f' }
  | .sadd k m =>
    { st with sets := fun k' =>
        if k' = k then (if m ∈ st.sets k then st.sets k else st.sets k ++ [m]) else st.sets k' }
  | .zadd k m s =>
    { st with zsets := fun k' =>
        if k' = k then (k, s) :: (st.zsets k).filter (fun p => p.1 ≠ m) else st.zsets k' }
  | .del k =>
    { sets := fun k' => if k' = k then [] else st.sets k'
      hashes := fun k' f => if k' = k then none else st.hashes k' f
      zsets := fun k' => if k' = k then [] else st.zsets k' }

/-- Run a trace of commands against the store. -/
def exec (st : Store) (tr : List Cmd) : Store := tr.foldl applyCmd st

/-- `SMEMBERS key` (snapshot enumeration order). -/
def Store.smembers (st : Store) (key : String) : List String := st.sets key

/-- `HGET key field`. -/
def Store.hget (st : Store) (key field : String) : Option String := st.hashes key field

/-- `HMGET key fields...`: one optional value per requested field, in
request order; an absent field gives `none`, never a failure. -/
def Store.hmget (st : Store) (key : String) (fields : List String) : List (Option String) :=
  fields.map (st.hashes key)

/-- Redis `ZREVRANGE` index arithmetic over an already-descending listing:
negative indexes count from the end, `start` is clamped below at `0`, and
the `start..stop` window is inclusive. -/
def zrevrangeL (zs : List String) (start stop : Int) : List String :=
  let n : Int := zs.length
  let s := if start < 0 then max (n + start) 0 else start
  let e := if stop < 0 then n + stop else stop
  if e < s then [] else (zs.drop s.toNat).take (e - s + 1).toNat

/-- `ZREVRANGE key start stop` on a sorted index. -/
def Store.zrevrange (st : Store) (key : String) (start stop : Int) : List String :=
  zrevrangeL ((st.zsets key).map Prod.fst) start stop

/-- `ZREVRANGEBYSCORE key +inf minScore LIMIT offset num`: members whose
score is at least `minScore`, in descending order, with a Redis LIMIT
clause (a negative `num` means all remaining elements). -/
def Store.zrevrangebyscore (st : Store) (key : String) (minScore : Rat) (offset num : Int) :
    List String :=
  let filtered := (((st.zsets key).filter (fun p => minScore ≤ p.2)).map Prod.fst).drop offset.toNat
  if num < 0 then filtered else filtered.take num.toNat

/-- A parsed genre object: `g.get("name")` may be absent. -/
structure Genre where
  name : Option String
deriving DecidableEq

/-- The normalized record payload built by `lookup_by_title`. -/
structure MoviePayload where
  title : Option String
  release_date : Option String
  runtime : Option String
  vote_average : Rat
  vote_count : Int
  popularity : Rat
  revenue : Rat
  genres : List Genre
  overview : Option String

/-- `safe_float` from the source: `None` coerces to the default, a value
that fails to parse as a number coerces to the default, otherwise the
parsed number is returned. Totality of this Lean function is the
exception-freedom of the Python original (a raised parse error is the
`none` branch of `pyFloat?`). -/
def safe_float (value : Option String) (default : Rat := 0) : Rat :=
  match value with
  | none => default
  | some s => (pyFloat? s).getD default

/-- `iter_movies_fields` from the source: list the collection membership
set, split it into contiguous batches of `batch_size`, and for each key of
each batch request all `field_names` in one grouped round trip, yielding
`(movie_key, field_values)` in input order. The second component is the
trace of store commands issued. -/
def iter_movies_fields (st : Store) (field_names : List String) (batch_size : Nat := 300) :
    List (String × List (Option String)) × List Cmd :=
  let members := st.smembers "tmdb:movies"
  let chunks := chunkList batch_size members
  (chunks.flatMap (fun batch => batch.map (fun k => (k, st.hmget k field_names))),
   Cmd.smembers "tmdb:movies" ::
     chunks.flatMap (fun batch => batch.map (fun k => Cmd.hmget k field_names)))

/-- `get_top_popular` from the source: top `limit` members of the
popularity index, then title and popularity per member, defaulting a
missing title to "(untitled)". -/
def get_top_popular (st : Store) (limit : Int := 20) : List (String × Rat) × List Cmd :=
  let members := st.zrevrange "tmdb:idx:popularity" 0 (limit - 1)
  let tr0 := [Cmd.zrevrange "tmdb:idx:popularity" 0 (limit - 1)]
  if members = [] then ([], tr0)
  else
    let data := members.map (fun k => (st.hget k "title", st.hget k "popularity"))
    (data.map (fun row => (pyOr row.1 "(untitled)", safe_float row.2)),
     tr0 ++ members.map (fun k => Cmd.hmget k ["title", "popularity"]))

/-- Inner row scan of `get_best_rated`: coerce the vote count, keep rows
meeting the threshold, and break out as soon as `limit` results are
collected. -/
def bestRatedScan (min_votes limit : Int) (acc : List (String × Rat × Int)) :
    List (Option String × Option String × Option String) → List (String × Rat × Int)
  | [] => acc
  | row :: rest =>
    let votes := pytrunc (safe_float row.2.2 0)
    if min_votes ≤ votes then
      let acc2 := acc ++ [(pyOr row.1 "(untitled)", safe_float row.2.1, votes)]
      if limit ≤ (acc2.length : Int) then acc2 else bestRatedScan min_votes limit acc2 rest
    else bestRatedScan min_votes limit acc rest

/-- Paging loop of `get_best_rated`: while fewer than `limit` results, take
the next page of 200 from the vote_average index, stop on an empty page,
otherwise fetch the rows and scan them. `fuel` is a structural bound on
the number of pages; the wrapper passes enough for the loop to always end
by its own exit conditions. -/
def bestRatedGo (st : Store) (min_votes limit : Int) :
    Nat → List (String × Rat × Int) → List Cmd → Nat → List (String × Rat × Int) × List Cmd
  | 0, acc, tr, _ => (acc, tr)
  | fuel + 1, acc, tr, start =>
    if (acc.length : Int) < limit then
      let chunk := st.zrevrange "tmdb:idx:vote_average" (start : Int) ((start : Int) + 200 - 1)
      let tr2 := tr ++ [Cmd.zrevrange "tmdb:idx:vote_average" (start : Int) ((start : Int) + 200 - 1)]
      if chunk = [] then (acc, tr2)
      else
        let rows := chunk.map (fun k => (st.hget k "title", st.hget k "vote_average", st.hget k "vote_count"))
        let tr3 := tr2 ++ chunk.map (fun k => Cmd.hmget k ["title", "vote_average", "vote_count"])
        bestRatedGo st min_votes limit fuel (bestRatedScan min_votes limit acc rows) tr3 (start + 200)
    else (acc, tr)

/-- `get_best_rated` from the source: top titles by vote_average with a
minimum vote_count threshold, paging the index in chunks of 200. -/
def get_best_rated (st : Store) (min_votes : Int := 1000) (limit : Int := 10) :
    List (String × Rat × Int) × List Cmd :=
  bestRatedGo st min_votes limit ((st.zsets "tmdb:idx:vote_average").length + 1) [] [] 0

/-- `get_new_releases` from the source: a descending by-score range on the
release_date index from +inf down to `min_year`-01-01 encoded as the
integer `min_year * 10000 + 101` (that is `int(f"{min_year:04d}0101")` for
a non-negative year), bounded to `limit`, then title and release_date per
member. -/
def get_new_releases (st : Store) (min_year : Nat) (limit : Int := 20) :
    List (String × String) × List Cmd :=
  let min_score : Int := (min_year : Int) * 10000 + 101
  let members := st.zrevrangebyscore "tmdb:idx:release_date" (min_score : Rat) 0 limit
  let rows := members.map (fun k => (st.hget k "title", st.hget k "release_date"))
  (rows.map (fun row => (pyOr row.1 "(untitled)", (row.2).getD "")),
   Cmd.zrevrangebyscore "tmdb:idx:release_date" (min_score : Rat) 0 limit ::
     members.map (fun k => Cmd.hmget k ["title", "release_date"]))

/-- `get_box_office_top` from the source: top `limit` members of the
revenue index, then title and revenue per member. -/
def get_box_office_top (st : Store) (limit : Int := 10) : List (String × Rat) × List Cmd :=
  let members := st.zrevrange "tmdb:idx:revenue" 0 (limit - 1)
  let rows := members.map (fun k => (st.hget k "title", st.hget k "revenue"))
  (rows.map (fun row => (pyOr row.1 "(untitled)", safe_float row.2)),
   Cmd.zrevrange "tmdb:idx:revenue" 0 (limit - 1) ::
     members.map (fun k => Cmd.hmget k ["title", "revenue"]))

/-- One `counts[name] = counts.get(name, 0) + 1` step on an insertion-order
association list of counts. -/
def bump : List (String × Nat) → String → List (String × Nat)
  | [], name => [(name, 1)]
  | (n, c) :: rest, name =>
    if n = name then (n, c + 1) :: rest else (n, c) :: bump rest name

/-- Per-record tally step of `get_genre_distribution`: skip a falsy
payload, skip a payload `json.loads` cannot parse, and otherwise count
every genre whose stripped name is non-empty. `json_loads` is the external
JSON decoder (a parse failure, a non-list payload or a malformed element
is its `none`). -/
def tallyRecord (json_loads : String → Option (List Genre)) (counts : List (String × Nat))
    (genres_json : Option String) : List (String × Nat) :=
  match genres_json with
  | none => counts
  | some s =>
    if s = "" then counts
    else
      match json_loads s with
      | none => counts
      | some arr =>
        arr.foldl (fun cs g =>
          let name := pystrip (pyOr g.name "")
          if name ≠ "" then bump cs name else cs) counts

/-- Descending-by-count order on tally entries. -/
def cntGe (a b : String × Nat) : Prop := b.2 ≤ a.2

instance : DecidableRel cntGe := fun a b => inferInstanceAs (Decidable (b.2 ≤ a.2))

instance : IsTotal (String × Nat) cntGe := ⟨fun a b => Or.symm (Nat.le_total a.2 b.2)⟩

instance : IsTrans (String × Nat) cntGe := ⟨fun _ _ _ hab hbc => Nat.le_trans hbc hab⟩

/-- Python's stable `sorted(..., key=count, reverse=True)`. -/
def sortDesc (l : List (String × Nat)) : List (String × Nat) := l.insertionSort cntGe

/-- `get_genre_distribution` from the source: batch-fetch the `genres`
field for every record, tally genre-name occurrences, sort descending by
count and keep the first `top_n` entries. -/
def get_genre_distribution (json_loads : String → Option (List Genre)) (st : Store)
    (top_n : Int := 12) : List (String × Nat) × List Cmd :=
  let fetched := iter_movies_fields st ["genres"] 300
  let counts := fetched.1.foldl (fun cs kv => tallyRecord json_loads cs (kv.2.getD 0 none)) []
  (pySliceTo (sortDesc counts) top_n, fetched.2)

/-- Runtime coercion of `get_runtime_distribution`:
`float(rt) if rt is not None and rt != "" else None`, with a parse failure
also giving `None`. -/
def parse_runtime (rt : Option String) : Option Rat :=
  match rt with
  | none => none
  | some s => if s = "" then none else pyFloat? s

/-- `get_runtime_distribution` from the source: batch-fetch `runtime` for
every record, keep the truthy strictly positive coerced values, and return
them with their arithmetic mean (0 when there are none). -/
def get_runtime_distribution (st : Store) : (List Rat × Rat) × List Cmd :=
  let fetched := iter_movies_fields st ["runtime"] 300
  let runtimes := fetched.1.foldl (fun acc kv =>
    match parse_runtime (kv.2.getD 0 none) with
    | some v => if v ≠ 0 ∧ 0 < v then acc ++ [v] else acc
    | none => acc) []
  ((runtimes, if runtimes ≠ [] then runtimes.sum / (runtimes.length : Rat) else 0), fetched.2)

/-- The seven fixed histogram bins the runtime tab builds with
`np.histogram(arr, bins=[0, 60, 90, 120, 150, 180, 240, 9999])`: every bin
is a half-open interval except the last, which is closed. -/
def runtime_hist (xs : List Rat) : List Nat :=
  [xs.countP (fun x => decide (0 ≤ x ∧ x < 60)),
   xs.countP (fun x => decide (60 ≤ x ∧ x < 90)),
   xs.countP (fun x => decide (90 ≤ x ∧ x < 120)),
   xs.countP (fun x => decide (120 ≤ x ∧ x < 150)),
   xs.countP (fun x => decide (150 ≤ x ∧ x < 180)),
   xs.countP (fun x => decide (180 ≤ x ∧ x < 240)),
   xs.countP (fun x => decide (240 ≤ x ∧ x ≤ 9999))]

/-- Scatter-sample scan of `get_rating_vs_votes_sample`: keep pairs with
both coerced values strictly positive, and break once `max_points` points
are collected (the break test runs after the possible append, on every
record). -/
def scatterGo (max_points : Int) (xs ys : List Rat) :
    List (String × List (Option String)) → List Rat × List Rat
  | [] => (xs, ys)
  | kv :: rest =>
    let vote_avg := safe_float (kv.2.getD 0 none)
    let vote_cnt := safe_float (kv.2.getD 1 none)
    let step := if 0 < vote_avg ∧ 0 < vote_cnt then (xs ++ [vote_cnt], ys ++ [vote_avg]) else (xs, ys)
    if max_points ≤ (step.1.length : Int) then step
    else scatterGo max_points step.1 step.2 rest

/-- `get_rating_vs_votes_sample` from the source. The trace is that of the
underlying full enumeration; an early break only consumes a prefix of it
(every command of it is a read either way). -/
def get_rating_vs_votes_sample (st : Store) (max_points : Int := 3000) :
    (List Rat × List Rat) × List Cmd :=
  let fetched := iter_movies_fields st ["vote_average", "vote_count"] 300
  (scatterGo max_points [] [] fetched.1, fetched.2)

/-- `lookup_by_title` from the source: resolve the normalized title through
the title index, and on a hit fetch and normalize the fixed attribute
bundle. -/
def lookup_by_title (json_loads : String → Option (List Genre)) (st : Store) (title : String) :
    Option MoviePayload × List Cmd :=
  let norm := pylower (pystrip title)
  let tr0 := [Cmd.hget "tmdb:idx:title_to_key" norm]
  match st.hget "tmdb:idx:title_to_key" norm with
  | none => (none, tr0)
  | some key =>
    if key = "" then (none, tr0)
    else
      let fields := ["title", "release_date", "runtime", "vote_average", "vote_count",
        "popularity", "revenue", "genres", "overview"]
      let values := st.hmget key fields
      (some
        { title := values.getD 0 none
          release_date := values.getD 1 none
          runtime := values.getD 2 none
          vote_average := safe_float (values.getD 3 none)
          vote_count := pytrunc (safe_float (values.getD 4 none))
          popularity := safe_float (values.getD 5 none)
          revenue := safe_float (values.getD 6 none)
          genres := (json_loads (pyOr (values.getD 7 none) "[]")).getD []
          overview := values.getD 8 none },
       tr0 ++ [Cmd.hmget key fields])

/-- Title-scan step of `search_by_title_keyword`: a falsy title is skipped,
a matching title is appended, and the whole search returns as soon as
`max_results` matches are collected (the boolean marks that early return). -/
def scanTitles (needle : String) (max_results : Int) (acc : List String) :
    List (Option String) → List String × Bool
  | [] => (acc, false)
  | t :: rest =>
    match t with
    | none => scanTitles needle max_results acc rest
    | some s =>
      if s ≠ "" ∧ pyIn needle (pylower s) then
        let acc2 := acc ++ [s]
        if max_results ≤ (acc2.length : Int) then (acc2, true)
        else scanTitles needle max_results acc2 rest
      else scanTitles needle max_results acc rest

/-- Batch loop of `search_by_title_keyword`: per batch, fetch each title in
one grouped round trip, then scan; an early return skips the remaining
batches (and their commands). -/
def searchBatches (st : Store) (needle : String) (max_results : Int) :
    List String → List Cmd → List (List String) → List String × List Cmd
  | acc, tr, [] => (acc, tr)
  | acc, tr, batch :: rest =>
    let titles := batch.map (fun k => st.hget k "title")
    let tr2 := tr ++ batch.map (fun k => Cmd.hget k "title")
    let scanned := scanTitles needle max_results acc titles
    if scanned.2 then (scanned.1, tr2)
    else searchBatches st needle max_results scanned.1 tr2 rest

/-- `search_by_title_keyword` from the source: an empty or blank query
returns no results and issues no store command at all; otherwise the
collection membership set is scanned linearly in batches of 200 for
case-insensitive substring matches, stopping at `max_results`. -/
def search_by_title_keyword (st : Store) (keyword : String) (max_results : Int := 10) :
    List String × List Cmd :=
  let needle := pystrip (pylower keyword)
  if needle = "" then ([], [])
  else
    let movies := st.smembers "tmdb:movies"
    searchBatches st needle max_results [] [Cmd.smembers "tmdb:movies"] (chunkList 200 movies)

/-! ### Chunking: batches are a partition of the input key sequence -/

theorem chunkFuel_flatten {α : Type} (bs : Nat) (hbs : 0 < bs) :
    ∀ (fuel : Nat) (xs : List α), xs.length ≤ fuel → (chunkFuel bs fuel xs).flatten = xs := by
  intro fuel
  induction fuel with
  | zero =>
    intro xs hlen
    cases xs with
    | nil => rfl
    | cons x l => simp at hlen
  | succ n ih =>
    intro xs hlen
    cases xs with
    | nil => rfl
    | cons x l =>
      have hdrop : ((x :: l).drop bs).length ≤ n := by
        simp only [List.length_drop, List.length_cons]
        simp only [List.length_cons] at hlen
        omega
      simp only [chunkFuel, List.flatten_cons, ih _ hdrop, List.take_append_drop]

theorem chunkList_flatten {α : Type} (bs : Nat) (hbs : 0 < bs) (xs : List α) :
    (chunkList bs xs).flatten = xs :=
  chunkFuel_flatten bs hbs xs.length xs le_rfl

theorem flatMap_map_flatten {α β : Type} (L : List (List α)) (f : α → β) :
    L.flatMap (fun b => b.map f) = L.flatten.map f := by
  induction L with
  | nil => rfl
  | cons b L ih => simp [List.flatMap_cons, List.flatten_cons, ih]

/-- Characterization of the batch fetcher's output: one pair per member of
the collection set, in enumeration order, each carrying one slot per
requested field holding exactly the stored hash value of that field. -/
theorem iter_movies_fields_eq (st : Store) (fields : List String) (bs : Nat) (hbs : 0 < bs) :
    (iter_movies_fields st fields bs).1 =
      (st.sets "tmdb:movies").map (fun k => (k, fields.map (st.hashes k))) := by
  unfold iter_movies_fields
  simp only [Store.smembers, Store.hmget]
  rw [flatMap_map_flatten, chunkList_flatten bs hbs]

/-- The batch fetcher's command trace: one membership enumeration, then one
grouped hash read per key. -/
theorem iter_movies_fields_tr (st : Store) (fields : List String) (bs : Nat) (hbs : 0 < bs) :
    (iter_movies_fields st fields bs).2 =
      Cmd.smembers "tmdb:movies" ::
        (st.sets "tmdb:movies").map (fun k => Cmd.hmget k fields) := by
  unfold iter_movies_fields
  simp only [Store.smembers]
  rw [flatMap_map_flatten, chunkList_flatten bs hbs]

/-! ### Read-only traces leave the store unchanged -/

theorem applyCmd_of_isRead (st : Store) (c : Cmd) (h : c.isRead = true) : applyCmd st c = st := by
  cases c <;> simp [Cmd.isRead] at h ⊢ <;> rfl

theorem exec_of_reads (tr : List Cmd) :
    ∀ (st : Store), (∀ c ∈ tr, c.isRead = true) → exec st tr = st := by
  induction tr with
  | nil => intro st _; rfl
  | cons c tr ih =>
    intro st h
    have hc : c.isRead = true := h c (List.mem_cons_self c tr)
    show exec (applyCmd st c) tr = st
    rw [applyCmd_of_isRead st c hc]
    exact ih st (fun d hd => h d (List.mem_cons_of_mem c hd))

theorem iter_movies_fields_reads (st : Store) (fields : List String) (bs : Nat) :
    ∀ c ∈ (iter_movies_fields st fields bs).2, c.isRead = true := by
  intro c hc
  unfold iter_movies_fields at hc
  simp only [List.mem_cons, List.mem_flatMap, List.mem_map] at hc
  rcases hc with h | ⟨b, _, k, _, hk⟩
  · rw [h]; rfl
  · rw [← hk]; rfl

theorem get_top_popular_reads (st : Store) (limit : Int) :
    ∀ c ∈ (get_top_popular st limit).2, c.isRead = true := by
  intro c hc
  unfold get_top_popular at hc
  simp only [] at hc
  split at hc
  · simp only [List.mem_singleton] at hc
    rw [hc]; rfl
  · simp only [List.mem_append, List.mem_singleton, List.mem_map] at hc
    rcases hc with h | ⟨k, _, hk⟩
    · rw [h]; rfl
    · rw [← hk]; rfl

theorem get_box_office_top_reads (st : Store) (limit : Int) :
    ∀ c ∈ (get_box_office_top st limit).2, c.isRead = true := by
  intro c hc
  unfold get_box_office_top at hc
  simp only [List.mem_cons, List.mem_map] at hc
  rcases hc with h | ⟨k, _, hk⟩
  · rw [h]; rfl
  · rw [← hk]; rfl

theorem get_new_releases_reads (st : Store) (min_year : Nat) (limit : Int) :
    ∀ c ∈ (get_new_releases st min_year limit).2, c.isRead = true := by
  intro c hc
  unfold get_new_releases at hc
  simp only [List.mem_cons, List.mem_map] at hc
  rcases hc with h | ⟨k, _, hk⟩
  · rw [h]; rfl
  · rw [← hk]; rfl

theorem bestRatedGo_reads (st : Store) (mv lim : Int) :
    ∀ (fuel : Nat) (acc : List (String × Rat × Int)) (tr : List Cmd) (start : Nat),
      (∀ c ∈ tr, c.isRead = true) →
      ∀ c ∈ (bestRatedGo st mv lim fuel acc tr start).2, c.isRead = true := by
  intro fuel
  induction fuel with
  | zero => intro acc tr start h; exact h
  | succ n ih =>
    intro acc tr start h c hc
    unfold bestRatedGo at hc
    by_cases hlt : (acc.length : Int) < lim
    · simp only [if_pos hlt] at hc
      by_cases hch : st.zrevrange "tmdb:idx:vote_average" (start : Int) ((start : Int) + 200 - 1) = []
      · simp only [hch, if_pos rfl] at hc
        rcases List.mem_append.mp hc with h1 | h2
        · exact h c h1
        · rw [List.mem_singleton.mp h2]; rfl
      · simp only [if_neg hch] at hc
        refine ih _ _ _ ?_ c hc
        intro d hd
        rcases List.mem_append.mp hd with h1 | h2
        · rcases List.mem_append.mp h1 with h3 | h4
          · exact h d h3
          · rw [List.mem_singleton.mp h4]; rfl
        · rcases List.mem_map.mp h2 with ⟨k, _, hk⟩
          rw [← hk]; rfl
    · simp only [if_neg hlt] at hc
      exact h c hc

theorem get_best_rated_reads (st : Store) (mv lim : Int) :
    ∀ c ∈ (get_best_rated st mv lim).2, c.isRead = true :=
  bestRatedGo_reads st mv lim _ [] [] 0 (by intro c hc; simp at hc)

theorem lookup_by_title_reads (json_loads : String → Option (List Genre)) (st : Store)
    (title : String) : ∀ c ∈ (lookup_by_title json_loads st title).2, c.isRead = true := by
  intro c hc
  unfold lookup_by_title at hc
  simp only [] at hc
  split at hc
  · simp only [List.mem_singleton] at hc
    rw [hc]; rfl
  · split at hc
    · simp only [List.mem_singleton] at hc
      rw [hc]; rfl
    · simp only [List.mem_append, List.mem_singleton] at hc
      rcases hc with h | h <;> (rw [h]; rfl)

theorem searchBatches_reads (st : Store) (needle : String) (mr : Int) :
    ∀ (batches : List (List String)) (acc : List String) (tr : List Cmd),
      (∀ c ∈ tr, c.isRead = true) →
      ∀ c ∈ (searchBatches st needle mr acc tr batches).2, c.isRead = true := by
  intro batches
  induction batches with
  | nil => intro acc tr h; exact h
  | cons b rest ih =>
    intro acc tr h c hc
    unfold searchBatches at hc
    have htr2 : ∀ d ∈ tr ++ b.map (fun k => Cmd.hget k "title"), d.isRead = true := by
      intro d hd
      rcases List.mem_append.mp hd with h1 | h2
      · exact h d h1
      · rcases List.mem_map.mp h2 with ⟨k, _, hk⟩
        rw [← hk]; rfl
    by_cases hstop : (scanTitles needle mr acc (b.map (fun k => st.hget k "title"))).2 = true
    · simp only [hstop, if_pos rfl] at hc
      exact htr2 c hc
    · simp only [hstop] at hc
      simp only [Bool.false_eq_true, if_false] at hc
      exact ih _ _ htr2 c hc

theorem search_by_title_keyword_reads (st : Store) (keyword : String) (mr : Int) :
    ∀ c ∈ (search_by_title_keyword st keyword mr).2, c.isRead = true := by
  intro c hc
  unfold search_by_title_keyword at hc
  by_cases hblank : pystrip (pylower keyword) = ""
  · simp only [hblank, if_pos rfl] at hc
    simp at hc
  · simp only [if_neg hblank] at hc
    refine searchBatches_reads st _ mr _ _ _ ?_ c hc
    intro d hd
    rw [List.mem_singleton.mp hd]; rfl

theorem get_genre_distribution_tr (json_loads : String → Option (List Genre)) (st : Store)
    (tn : Int) : (get_genre_distribution json_loads st tn).2 = (iter_movies_fields st ["genres"] 300).2 := rfl

theorem get_runtime_distribution_tr (st : Store) :
    (get_runtime_distribution st).2 = (iter_movies_fields st ["runtime"] 300).2 := rfl

theorem get_rating_vs_votes_sample_tr (st : Store) (mp : Int) :
    (get_rating_vs_votes_sample st mp).2 = (iter_movies_fields st ["vote_average", "vote_count"] 300).2 := rfl

/-- Claim C9: every core operation — the batch fetcher, the seven ranked
query functions, exact title lookup and keyword search — leaves the store
state unchanged: running the trace of commands any of them issues against
the starting store gives back the same store, for every store and all
arguments. -/
theorem core_reads_leave_store_unchanged (json_loads : String → Option (List Genre))
    (st : Store) (fields : List String) (bs : Nat) (l1 mv l2 : Int) (min_year : Nat)
    (l3 l4 tn mp mr : Int) (title keyword : String) :
    exec st (iter_movies_fields st fields bs).2 = st ∧
    exec st (get_top_popular st l1).2 = st ∧
    exec st (get_best_rated st mv l2).2 = st ∧
    exec st (get_new_releases st min_year l3).2 = st ∧
    exec st (get_box_office_top st l4).2 = st ∧
    exec st (get_genre_distribution json_loads st tn).2 = st ∧
    exec st (get_runtime_distribution st).2 = st ∧
    exec st (get_rating_vs_votes_sample st mp).2 = st ∧
    exec st (lookup_by_title json_loads st title).2 = st ∧
    exec st (search_by_title_keyword st keyword mr).2 = st := by
  refine ⟨?_, ?_, ?_, ?_, ?_, ?_, ?_, ?_, ?_, ?_⟩
  · exact exec_of_reads _ st (iter_movies_fields_reads st fields bs)
  · exact exec_of_reads _ st (get_top_popular_reads st l1)
  · exact exec_of_reads _ st (get_best_rated_reads st mv l2)
  · exact exec_of_reads _ st (get_new_releases_reads st min_year l3)
  · exact exec_of_reads _ st (get_box_office_top_reads st l4)
  · rw [get_genre_distribution_tr]
    exact exec_of_reads _ st (iter_movies_fields_reads st ["genres"] 300)
  · rw [get_runtime_distribution_tr]
    exact exec_of_reads _ st (iter_movies_fields_reads st ["runtime"] 300)
  · rw [get_rating_vs_votes_sample_tr]
    exact exec_of_reads _ st (iter_movies_fields_reads st ["vote_average", "vote_count"] 300)
  · exact exec_of_reads _ st (lookup_by_title_reads json_loads st title)
  · exact exec_of_reads _ st (search_by_title_keyword_reads st keyword mr)

/-- Claim C8: every ranked query function is idempotent against an
unchanged store: a second invocation with identical arguments, run on the
store as left behind by the first invocation's commands, returns exactly
the first invocation's output (and issues the same commands). -/
theorem ranked_queries_idempotent (json_loads : String → Option (List Genre)) (st : Store)
    (l1 mv l2 : Int) (min_year : Nat) (l3 l4 tn mp : Int) :
    get_top_popular (exec st (get_top_popular st l1).2) l1 = get_top_popular st l1 ∧
    get_best_rated (exec st (get_best_rated st mv l2).2) mv l2 = get_best_rated st mv l2 ∧
    get_new_releases (exec st (get_new_releases st min_year l3).2) min_year l3 =
      get_new_releases st min_year l3 ∧
    get_box_office_top (exec st (get_box_office_top st l4).2) l4 = get_box_office_top st l4 ∧
    get_genre_distribution json_loads (exec st (get_genre_distribution json_loads st tn).2) tn =
      get_genre_distribution json_loads st tn ∧
    get_runtime_distribution (exec st (get_runtime_distribution st).2) =
      get_runtime_distribution st ∧
    get_rating_vs_votes_sample (exec st (get_rating_vs_votes_sample st mp).2) mp =
      get_rating_vs_votes_sample st mp := by
  refine ⟨?_, ?_, ?_, ?_, ?_, ?_, ?_⟩
  · rw [exec_of_reads _ st (get_top_popular_reads st l1)]
  · rw [exec_of_reads _ st (get_best_rated_reads st mv l2)]
  · rw [exec_of_reads _ st (get_new_releases_reads st min_year l3)]
  · rw [exec_of_reads _ st (get_box_office_top_reads st l4)]
  · rw [get_genre_distribution_tr,
      exec_of_reads _ st (iter_movies_fields_reads st ["genres"] 300)]
  · rw [get_runtime_distribution_tr,
      exec_of_reads _ st (iter_movies_fields_reads st ["runtime"] 300)]
  · rw [get_rating_vs_votes_sample_tr,
      exec_of_reads _ st (iter_movies_fields_reads st ["vote_average", "vote_count"] 300)]

/-! ### Claim C1: the batch fetcher -/

/-- Claim C1: for every positive batch size, the batch fetcher yields
exactly one (key, value-tuple) pair per key of the collection membership
set, in enumeration order; each tuple has one slot per requested field, in
request order, whose content is exactly the stored hash value (an absent
field is an absent slot, never a failure); and the whole result — output
and command trace — is independent of the choice of batch size. -/
theorem batch_fetcher_correct (st : Store) (fields : List String) (bs bs' : Nat)
    (hbs : 0 < bs) (hbs' : 0 < bs') :
    (iter_movies_fields st fields bs).1.map Prod.fst = st.sets "tmdb:movies" ∧
    (∀ kv ∈ (iter_movies_fields st fields bs).1, kv.2.length = fields.length) ∧
    (∀ kv ∈ (iter_movies_fields st fields bs).1, kv.2 = fields.map (st.hashes kv.1)) ∧
    iter_movies_fields st fields bs = iter_movies_fields st fields bs' := by
  refine ⟨?_, ?_, ?_, ?_⟩
  · rw [iter_movies_fields_eq st fields bs hbs, List.map_map]
    exact List.map_id _
  · intro kv hkv
    rw [iter_movies_fields_eq st fields bs hbs] at hkv
    rcases List.mem_map.mp hkv with ⟨k, _, hk⟩
    rw [← hk]
    simp
  · intro kv hkv
    rw [iter_movies_fields_eq st fields bs hbs] at hkv
    rcases List.mem_map.mp hkv with ⟨k, _, hk⟩
    rw [← hk]
  · have h1 := iter_movies_fields_eq st fields bs hbs
    have h2 := iter_movies_fields_eq st fields bs' hbs'
    have t1 := iter_movies_fields_tr st fields bs hbs
    have t2 := iter_movies_fields_tr st fields bs' hbs'
    exact Prod.ext (h1.trans h2.symm) (t1.trans t2.symm)

/-- A small concrete store used by the witnesses and counterexamples:
two movies, of which only the first is indexed. -/
def demoStore : Store :=
  { sets := fun k => if k = "tmdb:movies" then ["m1", "m2"] else []
    hashes := fun k f =>
      if k = "m1" ∧ f = "title" then some "Dune"
      else if k = "m1" ∧ f = "vote_average" then some "8.0"
      else if k = "m1" ∧ f = "vote_count" then some "5000"
      else if k = "m1" ∧ f = "runtime" then some "155"
      else if k = "m1" ∧ f = "release_date" then some "2021-09-15"
      else if k = "m1" ∧ f = "popularity" then some "50"
      else if k = "m1" ∧ f = "revenue" then some "400000000"
      else if k = "m1" ∧ f = "genres" then some "G"
      else if k = "m2" ∧ f = "title" then some "Avatar"
      else if k = "m2" ∧ f = "runtime" then some "10000"
      else none
    zsets := fun k =>
      if k = "tmdb:idx:popularity" then [("m1", 50)]
      else if k = "tmdb:idx:vote_average" then [("m1", 8)]
      else if k = "tmdb:idx:release_date" then [("m1", 20210915)]
      else if k = "tmdb:idx:revenue" then [("m1", 400000000)] else [] }

/-- Witness for claim C1 at a concrete store, fields and batch sizes 1, 2. -/
theorem batch_fetcher_correct_witness :
    (iter_movies_fields demoStore ["title"] 1).1.map Prod.fst = demoStore.sets "tmdb:movies" ∧
    iter_movies_fields demoStore ["title"] 1 = iter_movies_fields demoStore ["title"] 2 := by
  have h := batch_fetcher_correct demoStore ["title"] 1 2 (by decide) (by decide)
  exact ⟨h.1, h.2.2.2⟩

/-! ### Claim C2: the Best Rated vote floor -/

theorem bestRatedScan_votes (mv lim : Int)
    (rows : List (Option String × Option String × Option String)) :
    ∀ (acc : List (String × Rat × Int)), (∀ t ∈ acc, mv ≤ t.2.2) →
      ∀ t ∈ bestRatedScan mv lim acc rows, mv ≤ t.2.2 := by
  induction rows with
  | nil => intro acc hacc; exact hacc
  | cons row rest ih =>
    intro acc hacc t ht
    unfold bestRatedScan at ht
    by_cases hvote : mv ≤ pytrunc (safe_float row.2.2 0)
    · simp only [if_pos hvote] at ht
      have hacc2 : ∀ u ∈ acc ++ [(pyOr row.1 "(untitled)", safe_float row.2.1, pytrunc (safe_float row.2.2 0))],
          mv ≤ u.2.2 := by
        intro u hu
        rcases List.mem_append.mp hu with h1 | h2
        · exact hacc u h1
        · rw [List.mem_singleton.mp h2]
          exact hvote
      split at ht
      · exact hacc2 t ht
      · exact ih _ hacc2 t ht
    · simp only [if_neg hvote] at ht
      exact ih _ hacc t ht

theorem bestRatedGo_votes (st : Store) (mv lim : Int) :
    ∀ (fuel : Nat) (acc : List (String × Rat × Int)) (tr : List Cmd) (start : Nat),
      (∀ t ∈ acc, mv ≤ t.2.2) →
      ∀ t ∈ (bestRatedGo st mv lim fuel acc tr start).1, mv ≤ t.2.2 := by
  intro fuel
  induction fuel with
  | zero => intro acc tr start hacc; exact hacc
  | succ n ih =>
    intro acc tr start hacc t ht
    unfold bestRatedGo at ht
    split at ht
    · simp only [] at ht
      split at ht
      · exact hacc t ht
      · exact ih _ _ _ (bestRatedScan_votes mv lim _ acc hacc) t ht
    · exact hacc t ht

theorem bestRatedScan_length (mv lim : Int)
    (rows : List (Option String × Option String × Option String)) :
    ∀ (acc : List (String × Rat × Int)), (acc.length : Int) < lim →
      ((bestRatedScan mv lim acc rows).length : Int) ≤ lim := by
  induction rows with
  | nil => intro acc h; exact le_of_lt h
  | cons row rest ih =>
    intro acc h
    unfold bestRatedScan
    by_cases hv : mv ≤ pytrunc (safe_float row.2.2 0)
    · simp only [if_pos hv]
      split
      next hlen =>
        simp only [List.length_append, List.length_cons, List.length_nil]
        omega
      next hlen =>
        refine ih _ ?_
        simp only [List.length_append, List.length_cons, List.length_nil] at hlen ⊢
        omega
    · simp only [if_neg hv]
      exact ih _ h

theorem bestRatedGo_length (st : Store) (mv lim : Int) :
    ∀ (fuel : Nat) (acc : List (String × Rat × Int)) (tr : List Cmd) (start : Nat),
      ((bestRatedGo st mv lim fuel acc tr start).1.length : Int) ≤ max lim (acc.length : Int) := by
  intro fuel
  induction fuel with
  | zero => intro acc tr start; exact le_max_right _ _
  | succ n ih =>
    intro acc tr start
    unfold bestRatedGo
    split
    next hlt =>
      simp only []
      split
      next => exact le_max_right _ _
      next hne =>
        refine le_trans (ih _ _ _) ?_
        have hscan := bestRatedScan_length mv lim
          ((st.zrevrange "tmdb:idx:vote_average" (start : Int) ((start : Int) + 200 - 1)).map
            (fun k => (st.hget k "title", st.hget k "vote_average", st.hget k "vote_count")))
          acc hlt
        omega
    next => exact le_max_right _ _

/-- Claim C2: every triple returned by `get_best_rated` satisfies the vote
floor: its vote count (the numeric coercion of the stored vote_count) is
at least `min_votes`, however many 200-member index pages the loop had to
scan; and the loop stops at `limit` matches — the result never exceeds
`limit` entries (`max limit 0` covers a non-positive `limit`, where the
loop body never runs). -/
theorem best_rated_meets_vote_floor (st : Store) (min_votes limit : Int) :
    (∀ t ∈ (get_best_rated st min_votes limit).1, min_votes ≤ t.2.2) ∧
    ((get_best_rated st min_votes limit).1.length : Int) ≤ max limit 0 := by
  constructor
  · exact bestRatedGo_votes st min_votes limit _ [] [] 0 (by intro t ht; simp at ht)
  · have h := bestRatedGo_length st min_votes limit
      ((st.zsets "tmdb:idx:vote_average").length + 1) [] [] 0
    simpa using h


/-- Witness for claim C2 at a concrete store: the returned triple for
"Dune" carries 5000 votes, above the floor of 1000. -/
theorem best_rated_meets_vote_floor_witness :
    ("Dune", (8 : Rat), (5000 : Int)) ∈ (get_best_rated demoStore 1000 1).1 ∧
    (1000 : Int) ≤ 5000 := by
  have h := best_rated_meets_vote_floor demoStore 1000 1
  exact ⟨by decide, h.1 ("Dune", (8 : Rat), (5000 : Int)) (by decide)⟩

/-! ### Claim C10: bounded queries respect their bounds -/

theorem zrevrangeL_length_le (zs : List String) (limit : Int) (h : 1 ≤ limit) :
    ((zrevrangeL zs 0 (limit - 1)).length : Int) ≤ limit := by
  unfold zrevrangeL
  simp only []
  split_ifs with h1 h2 h3 <;>
    simp_all [List.length_take, List.length_drop] <;> omega

theorem zrevrangebyscore_length_le (st : Store) (key : String) (minScore : Rat)
    (offset num : Int) (h : 1 ≤ num) :
    ((st.zrevrangebyscore key minScore offset num).length : Int) ≤ num := by
  unfold Store.zrevrangebyscore
  simp only []
  rw [if_neg (by omega : ¬ num < 0)]
  simp only [List.length_take]
  omega

theorem get_top_popular_length (st : Store) (limit : Int) (h : 1 ≤ limit) :
    ((get_top_popular st limit).1.length : Int) ≤ limit := by
  unfold get_top_popular
  simp only []
  split
  next => simp; omega
  next =>
    simp only [List.length_map]
    exact zrevrangeL_length_le _ limit h

theorem get_box_office_top_length (st : Store) (limit : Int) (h : 1 ≤ limit) :
    ((get_box_office_top st limit).1.length : Int) ≤ limit := by
  unfold get_box_office_top
  simp only [List.length_map]
  exact zrevrangeL_length_le _ limit h

theorem get_new_releases_length (st : Store) (min_year : Nat) (limit : Int) (h : 1 ≤ limit) :
    ((get_new_releases st min_year limit).1.length : Int) ≤ limit := by
  unfold get_new_releases
  simp only [List.length_map]
  exact zrevrangebyscore_length_le st _ _ 0 limit h

theorem scatterGo_len_eq (mp : Int) (rows : List (String × List (Option String))) :
    ∀ (xs ys : List Rat), xs.length = ys.length →
      (scatterGo mp xs ys rows).1.length = (scatterGo mp xs ys rows).2.length := by
  induction rows with
  | nil => intro xs ys h; exact h
  | cons kv rest ih =>
    intro xs ys h
    unfold scatterGo
    simp only []
    split
    next hcond =>
      split
      next => simp [h]
      next => exact ih _ _ (by simp [h])
    next hcond =>
      split
      next => exact h
      next => exact ih _ _ h

theorem scatterGo_bound (mp : Int) (rows : List (String × List (Option String))) :
    ∀ (xs ys : List Rat), (xs.length : Int) < mp →
      ((scatterGo mp xs ys rows).1.length : Int) ≤ mp := by
  induction rows with
  | nil => intro xs ys h; exact le_of_lt h
  | cons kv rest ih =>
    intro xs ys h
    unfold scatterGo
    simp only []
    split
    next hcond =>
      split
      next hstop =>
        simp only [List.length_append, List.length_cons, List.length_nil]
        omega
      next hstop =>
        refine ih _ _ ?_
        simp only [List.length_append, List.length_cons, List.length_nil] at hstop ⊢
        omega
    next hcond =>
      split
      next hstop => exact le_of_lt h
      next hstop => exact ih _ _ h

theorem scanTitles_length (needle : String) (mr : Int) (ts : List (Option String)) :
    ∀ (acc : List String), (acc.length : Int) < mr →
      ((scanTitles needle mr acc ts).1.length : Int) ≤ mr ∧
      ((scanTitles needle mr acc ts).2 = false →
        ((scanTitles needle mr acc ts).1.length : Int) < mr) := by
  induction ts with
  | nil => intro acc h; exact ⟨le_of_lt h, fun _ => h⟩
  | cons t rest ih =>
    intro acc h
    unfold scanTitles
    match t with
    | none => exact ih acc h
    | some s =>
      simp only []
      split
      next hmatch =>
        split
        next hstop =>
          refine ⟨?_, ?_⟩
          · simp only [List.length_append, List.length_cons, List.length_nil]
            omega
          · intro hfalse
            simp at hfalse
        next hstop =>
          refine ih _ ?_
          simp only [List.length_append, List.length_cons, List.length_nil] at hstop ⊢
          omega
      next hmatch => exact ih acc h

theorem searchBatches_length (st : Store) (needle : String) (mr : Int)
    (batches : List (List String)) :
    ∀ (acc : List String) (tr : List Cmd), (acc.length : Int) < mr →
      ((searchBatches st needle mr acc tr batches).1.length : Int) ≤ mr := by
  induction batches with
  | nil => intro acc tr h; exact le_of_lt h
  | cons b rest ih =>
    intro acc tr h
    unfold searchBatches
    simp only []
    split
    next hstop => exact (scanTitles_length needle mr _ acc h).1
    next hstop =>
      refine ih _ _ ?_
      have hfalse : (scanTitles needle mr acc (b.map (fun k => st.hget k "title"))).2 = false := by
        revert hstop
        cases (scanTitles needle mr acc (b.map (fun k => st.hget k "title"))).2 <;> simp
      exact (scanTitles_length needle mr _ acc h).2 hfalse

theorem search_by_title_keyword_length (st : Store) (keyword : String) (mr : Int)
    (h : 1 ≤ mr) : ((search_by_title_keyword st keyword mr).1.length : Int) ≤ mr := by
  unfold search_by_title_keyword
  simp only []
  split
  next => simp; omega
  next =>
    refine searchBatches_length st _ mr _ [] _ ?_
    simp
    omega

/-- Claim C10 (amended): for every positive bound, each bounded query
returns no more items than its bound: `get_top_popular`,
`get_box_office_top` and `get_new_releases` return at most `limit` pairs,
`get_best_rated` returns at most `limit` triples (this one for every
`limit`, as `max limit 0`), `get_rating_vs_votes_sample` returns at most
`max_points` pairs with its two lists of equal length, and
`search_by_title_keyword` returns at most `max_results` titles. -/
theorem bounded_queries_respect_bounds (st : Store) (l1 mv l2 : Int) (min_year : Nat)
    (l3 l4 mp mr : Int) (keyword : String)
    (h1 : 1 ≤ l1) (h3 : 1 ≤ l3) (h4 : 1 ≤ l4) (hmp : 1 ≤ mp) (hmr : 1 ≤ mr) :
    ((get_top_popular st l1).1.length : Int) ≤ l1 ∧
    ((get_best_rated st mv l2).1.length : Int) ≤ max l2 0 ∧
    ((get_new_releases st min_year l3).1.length : Int) ≤ l3 ∧
    ((get_box_office_top st l4).1.length : Int) ≤ l4 ∧
    ((get_rating_vs_votes_sample st mp).1.1.length : Int) ≤ mp ∧
    (get_rating_vs_votes_sample st mp).1.1.length = (get_rating_vs_votes_sample st mp).1.2.length ∧
    ((search_by_title_keyword st keyword mr).1.length : Int) ≤ mr := by
  refine ⟨get_top_popular_length st l1 h1, ?_, get_new_releases_length st min_year l3 h3,
    get_box_office_top_length st l4 h4, ?_, ?_, search_by_title_keyword_length st keyword mr hmr⟩
  · have h := bestRatedGo_length st mv l2 ((st.zsets "tmdb:idx:vote_average").length + 1) [] [] 0
    simpa using h
  · exact scatterGo_bound mp _ [] [] (by simpa using hmp)
  · exact scatterGo_len_eq mp _ [] [] rfl

/-- Counterexample to claim C10 as stated: with `limit = 0`,
`get_top_popular` issues `ZREVRANGE idx 0 -1` — in Redis index arithmetic
the whole index — so on a store with one indexed movie it returns one
pair, more than `limit = 0`. -/
theorem bounded_queries_cex : ¬ (((get_top_popular demoStore 0).1.length : Int) ≤ 0) := by decide

/-- Witness for the amended claim C10 at a concrete store with all bounds 1. -/
theorem bounded_queries_witness :
    ((get_top_popular demoStore 1).1.length : Int) ≤ 1 ∧
    ((search_by_title_keyword demoStore "a" 1).1.length : Int) ≤ 1 := by
  have h := bounded_queries_respect_bounds demoStore 1 1000 1 2010 1 1 1 1 "a"
    (by decide) (by decide) (by decide) (by decide) (by decide)
  exact ⟨h.1, h.2.2.2.2.2.2⟩

/-! ### Claim C6: blank keyword search short-circuits -/

/-- Claim C6: for every query that is empty or whitespace-only (its
lower-cased, stripped form is empty), keyword search returns an empty
result list and issues no store command at all — in particular it never
enumerates the collection membership set. -/
theorem blank_search_no_reads (st : Store) (keyword : String) (max_results : Int)
    (h : pystrip (pylower keyword) = "") :
    search_by_title_keyword st keyword max_results = ([], []) := by
  unfold search_by_title_keyword
  rw [h]
  rfl

/-- Witness for claim C6: a whitespace-only query on a concrete store. -/
theorem blank_search_no_reads_witness :
    search_by_title_keyword demoStore "   " 10 = ([], []) :=
  blank_search_no_reads demoStore "   " 10 (by decide)

/-! ### Claim C7: totality of the numeric coercion helper -/

/-- Claim C7: `safe_float` is total for every value and default — being a
Lean function it never fails — and it returns the parsed number when the
value parses, and the caller-specified default when the value is absent
(`None`), empty, or fails to parse (in Python, when `float` raises). -/
theorem safe_float_total_spec (v : Option String) (d : Rat) :
    (v = none → safe_float v d = d) ∧
    (∀ s, v = some s → pyFloat? s = none → safe_float v d = d) ∧
    (∀ s q, v = some s → pyFloat? s = some q → safe_float v d = q) ∧
    safe_float (some "") d = d := by
  refine ⟨?_, ?_, ?_, rfl⟩
  · intro h; rw [h]; rfl
  · intro s hs hp
    rw [hs]
    show (pyFloat? s).getD d = d
    rw [hp]
    rfl
  · intro s q hs hp
    rw [hs]
    show (pyFloat? s).getD d = q
    rw [hp]
    rfl

/-- Witness for claim C7 at concrete inputs: an absent value, a
non-numeric value and an empty value all coerce to the default, a numeric
value parses. -/
theorem safe_float_total_spec_witness :
    safe_float none (mkRat 3 2) = mkRat 3 2 ∧
    safe_float (some "N/A") (mkRat 3 2) = mkRat 3 2 ∧
    safe_float (some "8.0") 0 = 8 ∧
    safe_float (some "") (mkRat 3 2) = mkRat 3 2 := by
  refine ⟨(safe_float_total_spec none (mkRat 3 2)).1 rfl,
    (safe_float_total_spec (some "N/A") (mkRat 3 2)).2.1 "N/A" rfl (by decide),
    (safe_float_total_spec (some "8.0") 0).2.2.1 "8.0" 8 rfl (by decide),
    (safe_float_total_spec (some "") (mkRat 3 2)).2.2.2⟩

/-! ### Claim C4: new releases respect the year floor -/

theorem zrevrangebyscore_mem (st : Store) (key : String) (minScore : Rat) (offset num : Int) :
    ∀ k ∈ st.zrevrangebyscore key minScore offset num,
      ∃ p ∈ st.zsets key, p.1 = k ∧ minScore ≤ p.2 := by
  intro k hk
  unfold Store.zrevrangebyscore at hk
  simp only [] at hk
  have hk2 : k ∈ ((((st.zsets key).filter (fun p => minScore ≤ p.2)).map Prod.fst).drop offset.toNat) := by
    split at hk
    · exact hk
    · exact List.mem_of_mem_take hk
  have hk3 := List.mem_of_mem_drop hk2
  rcases List.mem_map.mp hk3 with ⟨p, hp, hpk⟩
  have hfil := List.mem_filter.mp hp
  exact ⟨p, hfil.1, hpk, by simpa using hfil.2⟩

/-- Claim C4: whenever the release_date index is coherent with the stored
release_date fields (each indexed member's score equals the `YYYYMMDD`
integer encoding of its `release_date` hash field — the data-model
invariant the core relies on), every release_date string returned by
`get_new_releases` parses to an 8-digit `YYYYMMDD` integer at least the
encoding of `min_year`-01-01, namely `min_year * 10000 + 101`. -/
theorem new_releases_respect_year_floor (st : Store) (min_year : Nat) (limit : Int)
    (hco : ∀ p ∈ st.zsets "tmdb:idx:release_date",
      ∃ v : Int, parseYYYYMMDD ((st.hashes p.1 "release_date").getD "") = some v ∧ (v : Rat) = p.2) :
    ∀ q ∈ (get_new_releases st min_year limit).1,
      ∃ v : Int, parseYYYYMMDD q.2 = some v ∧ (min_year : Int) * 10000 + 101 ≤ v := by
  intro q hq
  unfold get_new_releases at hq
  simp only [List.map_map, List.mem_map] at hq
  rcases hq with ⟨k, hk, hkq⟩
  rcases zrevrangebyscore_mem st _ _ 0 limit k hk with ⟨p, hp, hpk, hps⟩
  rcases hco p hp with ⟨v, hv, hvs⟩
  refine ⟨v, ?_, ?_⟩
  · rw [← hkq]
    simp only [Function.comp]
    rw [← hpk]
    exact hv
  · rw [← hvs] at hps
    exact_mod_cast hps

/-- Witness for claim C4: a concrete coherent store; the returned date
"2021-09-15" parses to 20210915, at least the encoding 20100101. -/
theorem new_releases_respect_year_floor_witness :
    ("Dune", "2021-09-15") ∈ (get_new_releases demoStore 2010 20).1 ∧
    (∃ v : Int, parseYYYYMMDD "2021-09-15" = some v ∧ (2010 : Int) * 10000 + 101 ≤ v) := by
  have hco : ∀ p ∈ demoStore.zsets "tmdb:idx:release_date",
      ∃ v : Int, parseYYYYMMDD ((demoStore.hashes p.1 "release_date").getD "") = some v ∧
        (v : Rat) = p.2 := by
    intro p hp
    have hz : demoStore.zsets "tmdb:idx:release_date" = [("m1", (20210915 : Rat))] := by decide
    rw [hz] at hp
    have hp1 : p = ("m1", (20210915 : Rat)) := by simpa using hp
    rw [hp1]
    exact ⟨20210915, by decide, by norm_num⟩
  exact ⟨by decide,
    new_releases_respect_year_floor demoStore 2010 20 hco ("Dune", "2021-09-15") (by decide)⟩

/-! ### Claim C3: the runtime histogram -/

/-- The per-record keep-step of `get_runtime_distribution`: the coerced
runtime when it is truthy and strictly positive, `none` otherwise. -/
def keepRt (v : Option String) : Option Rat :=
  match parse_runtime v with
  | some r => if r ≠ 0 ∧ 0 < r then some r else none
  | none => none

theorem rtFold_eq (st : Store) (ms : List String) :
    ∀ acc : List Rat,
      (ms.map (fun k => (k, [st.hashes k "runtime"]))).foldl
        (fun acc kv => match parse_runtime (kv.2.getD 0 none) with
          | some v => if v ≠ 0 ∧ 0 < v then acc ++ [v] else acc
          | none => acc) acc
      = acc ++ ms.filterMap (fun k => keepRt (st.hashes k "runtime")) := by
  induction ms with
  | nil => intro acc; simp
  | cons k ms ih =>
    intro acc
    simp only [List.map_cons, List.foldl_cons, List.filterMap_cons,
      List.getD_cons_zero]
    cases hv : parse_runtime (st.hashes k "runtime") with
    | none =>
      have hk : keepRt (st.hashes k "runtime") = none := by
        unfold keepRt; rw [hv]
      simp only [hv, hk]
      exact ih acc
    | some v =>
      by_cases hpos : v ≠ 0 ∧ 0 < v
      · have hk : keepRt (st.hashes k "runtime") = some v := by
          unfold keepRt; rw [hv]; exact if_pos hpos
        simp only [hv, hk, if_pos hpos]
        rw [ih (acc ++ [v])]
        simp
      · have hk : keepRt (st.hashes k "runtime") = none := by
          unfold keepRt; rw [hv]; exact if_neg hpos
        simp only [hv, hk, if_neg hpos]
        exact ih acc

theorem get_runtime_distribution_eq (st : Store) :
    (get_runtime_distribution st).1.1 =
      (st.sets "tmdb:movies").filterMap (fun k => keepRt (st.hashes k "runtime")) := by
  show ((iter_movies_fields st ["runtime"] 300).1.foldl _ []) = _
  rw [iter_movies_fields_eq st ["runtime"] 300 (by norm_num)]
  simp only [List.map_cons, List.map_nil]
  rw [rtFold_eq st _ []]
  rfl

theorem length_filterMap_eq_countP {α β : Type} (f : α → Option β) (l : List α) :
    (l.filterMap f).length = l.countP (fun a => (f a).isSome) := by
  induction l with
  | nil => rfl
  | cons a l ih =>
    cases hf : f a <;>
      simp [List.filterMap_cons, hf, List.countP_cons, ih]

theorem countP_filterMap_eq {α β : Type} (f : α → Option β) (p : β → Bool) (l : List α) :
    (l.filterMap f).countP p = l.countP (fun a => ((f a).map p).getD false) := by
  induction l with
  | nil => rfl
  | cons a l ih =>
    cases hf : f a <;>
      simp [List.filterMap_cons, hf, List.countP_cons, ih]

theorem keepRt_pos (v : Option String) (r : Rat) (h : keepRt v = some r) : 0 < r := by
  unfold keepRt at h
  split at h
  next u heq =>
    by_cases hc : u ≠ 0 ∧ 0 < u
    · rw [if_pos hc, Option.some.injEq] at h
      rw [← h]
      exact hc.2
    · rw [if_neg hc] at h
      cases h
  next heq => cases h

theorem runtime_hist_sum (xs : List Rat) (hpos : ∀ x ∈ xs, 0 < x) :
    (runtime_hist xs).sum = xs.countP (fun x => decide (x ≤ 9999)) := by
  induction xs with
  | nil => rfl
  | cons x xs ih =>
    have hx : 0 < x := hpos x (List.mem_cons_self x xs)
    have ih2 := ih (fun y hy => hpos y (List.mem_cons_of_mem x hy))
    simp only [runtime_hist, List.sum_cons, List.sum_nil, List.countP_cons,
      decide_eq_true_eq] at ih2 ⊢
    rcases lt_or_le x 60 with hb | hb
    · have e1 : (0 : Rat) ≤ x ∧ x < 60 := ⟨le_of_lt hx, hb⟩
      have e2 : ¬((60 : Rat) ≤ x ∧ x < 90) := by rintro ⟨h, -⟩; linarith
      have e3 : ¬((90 : Rat) ≤ x ∧ x < 120) := by rintro ⟨h, -⟩; linarith
      have e4 : ¬((120 : Rat) ≤ x ∧ x < 150) := by rintro ⟨h, -⟩; linarith
      have e5 : ¬((150 : Rat) ≤ x ∧ x < 180) := by rintro ⟨h, -⟩; linarith
      have e6 : ¬((180 : Rat) ≤ x ∧ x < 240) := by rintro ⟨h, -⟩; linarith
      have e7 : ¬((240 : Rat) ≤ x ∧ x ≤ 9999) := by rintro ⟨h, -⟩; linarith
      have e8 : x ≤ (9999 : Rat) := by linarith
      rw [if_pos e1, if_neg e2, if_neg e3, if_neg e4, if_neg e5, if_neg e6, if_neg e7, if_pos e8]
      omega
    rcases lt_or_le x 90 with hc | hc
    · have e1 : ¬((0 : Rat) ≤ x ∧ x < 60) := by rintro ⟨-, h⟩; linarith
      have e2 : (60 : Rat) ≤ x ∧ x < 90 := ⟨hb, hc⟩
      have e3 : ¬((90 : Rat) ≤ x ∧ x < 120) := by rintro ⟨h, -⟩; linarith
      have e4 : ¬((120 : Rat) ≤ x ∧ x < 150) := by rintro ⟨h, -⟩; linarith
      have e5 : ¬((150 : Rat) ≤ x ∧ x < 180) := by rintro ⟨h, -⟩; linarith
      have e6 : ¬((180 : Rat) ≤ x ∧ x < 240) := by rintro ⟨h, -⟩; linarith
      have e7 : ¬((240 : Rat) ≤ x ∧ x ≤ 9999) := by rintro ⟨h, -⟩; linarith
      have e8 : x ≤ (9999 : Rat) := by linarith
      rw [if_neg e1, if_pos e2, if_neg e3, if_neg e4, if_neg e5, if_neg e6, if_neg e7, if_pos e8]
      omega
    rcases lt_or_le x 120 with hd | hd
    · have e1 : ¬((0 : Rat) ≤ x ∧ x < 60) := by rintro ⟨-, h⟩; linarith
      have e2 : ¬((60 : Rat) ≤ x ∧ x < 90) := by rintro ⟨-, h⟩; linarith
      have e3 : (90 : Rat) ≤ x ∧ x < 120 := ⟨hc, hd⟩
      have e4 : ¬((120 : Rat) ≤ x ∧ x < 150) := by rintro ⟨h, -⟩; linarith
      have e5 : ¬((150 : Rat) ≤ x ∧ x < 180) := by rintro ⟨h, -⟩; linarith
      have e6 : ¬((180 : Rat) ≤ x ∧ x < 240) := by rintro ⟨h, -⟩; linarith
      have e7 : ¬((240 : Rat) ≤ x ∧ x ≤ 9999) := by rintro ⟨h, -⟩; linarith
      have e8 : x ≤ (9999 : Rat) := by linarith
      rw [if_neg e1, if_neg e2, if_pos e3, if_neg e4, if_neg e5, if_neg e6, if_neg e7, if_pos e8]
      omega
    rcases lt_or_le x 150 with he | he
    · have e1 : ¬((0 : Rat) ≤ x ∧ x < 60) := by rintro ⟨-, h⟩; linarith
      have e2 : ¬((60 : Rat) ≤ x ∧ x < 90) := by rintro ⟨-, h⟩; linarith
      have e3 : ¬((90 : Rat) ≤ x ∧ x < 120) := by rintro ⟨-, h⟩; linarith
      have e4 : (120 : Rat) ≤ x ∧ x < 150 := ⟨hd, he⟩
      have e5 : ¬((150 : Rat) ≤ x ∧ x < 180) := by rintro ⟨h, -⟩; linarith
      have e6 : ¬((180 : Rat) ≤ x ∧ x < 240) := by rintro ⟨h, -⟩; linarith
      have e7 : ¬((240 : Rat) ≤ x ∧ x ≤ 9999) := by rintro ⟨h, -⟩; linarith
      have e8 : x ≤ (9999 : Rat) := by linarith
      rw [if_neg e1, if_neg e2, if_neg e3, if_pos e4, if_neg e5, if_neg e6, if_neg e7, if_pos e8]
      omega
    rcases lt_or_le x 180 with hf | hf
    · have e1 : ¬((0 : Rat) ≤ x ∧ x < 60) := by rintro ⟨-, h⟩; linarith
      have e2 : ¬((60 : Rat) ≤ x ∧ x < 90) := by rintro ⟨-, h⟩; linarith
      have e3 : ¬((90 : Rat) ≤ x ∧ x < 120) := by rintro ⟨-, h⟩; linarith
      have e4 : ¬((120 : Rat) ≤ x ∧ x < 150) := by rintro ⟨-, h⟩; linarith
      have e5 : (150 : Rat) ≤ x ∧ x < 180 := ⟨he, hf⟩
      have e6 : ¬((180 : Rat) ≤ x ∧ x < 240) := by rintro ⟨h, -⟩; linarith
      have e7 : ¬((240 : Rat) ≤ x ∧ x ≤ 9999) := by rintro ⟨h, -⟩; linarith
      have e8 : x ≤ (9999 : Rat) := by linarith
      rw [if_neg e1, if_neg e2, if_neg e3, if_neg e4, if_pos e5, if_neg e6, if_neg e7, if_pos e8]
      omega
    rcases lt_or_le x 240 with hg | hg
    · have e1 : ¬((0 : Rat) ≤ x ∧ x < 60) := by rintro ⟨-, h⟩; linarith
      have e2 : ¬((60 : Rat) ≤ x ∧ x < 90) := by rintro ⟨-, h⟩; linarith
      have e3 : ¬((90 : Rat) ≤ x ∧ x < 120) := by rintro ⟨-, h⟩; linarith
      have e4 : ¬((120 : Rat) ≤ x ∧ x < 150) := by rintro ⟨-, h⟩; linarith
      have e5 : ¬((150 : Rat) ≤ x ∧ x < 180) := by rintro ⟨-, h⟩; linarith
      have e6 : (180 : Rat) ≤ x ∧ x < 240 := ⟨hf, hg⟩
      have e7 : ¬((240 : Rat) ≤ x ∧ x ≤ 9999) := by rintro ⟨h, -⟩; linarith
      have e8 : x ≤ (9999 : Rat) := by linarith
      rw [if_neg e1, if_neg e2, if_neg e3, if_neg e4, if_neg e5, if_pos e6, if_neg e7, if_pos e8]
      omega
    rcases le_or_lt x 9999 with hq | hq
    · have e1 : ¬((0 : Rat) ≤ x ∧ x < 60) := by rintro ⟨-, h⟩; linarith
      have e2 : ¬((60 : Rat) ≤ x ∧ x < 90) := by rintro ⟨-, h⟩; linarith
      have e3 : ¬((90 : Rat) ≤ x ∧ x < 120) := by rintro ⟨-, h⟩; linarith
      have e4 : ¬((120 : Rat) ≤ x ∧ x < 150) := by rintro ⟨-, h⟩; linarith
      have e5 : ¬((150 : Rat) ≤ x ∧ x < 180) := by rintro ⟨-, h⟩; linarith
      have e6 : ¬((180 : Rat) ≤ x ∧ x < 240) := by rintro ⟨-, h⟩; linarith
      have e7 : (240 : Rat) ≤ x ∧ x ≤ 9999 := ⟨hg, hq⟩
      rw [if_neg e1, if_neg e2, if_neg e3, if_neg e4, if_neg e5, if_neg e6, if_pos e7, if_pos hq]
      omega
    · have e1 : ¬((0 : Rat) ≤ x ∧ x < 60) := by rintro ⟨-, h⟩; linarith
      have e2 : ¬((60 : Rat) ≤ x ∧ x < 90) := by rintro ⟨-, h⟩; linarith
      have e3 : ¬((90 : Rat) ≤ x ∧ x < 120) := by rintro ⟨-, h⟩; linarith
      have e4 : ¬((120 : Rat) ≤ x ∧ x < 150) := by rintro ⟨-, h⟩; linarith
      have e5 : ¬((150 : Rat) ≤ x ∧ x < 180) := by rintro ⟨-, h⟩; linarith
      have e6 : ¬((180 : Rat) ≤ x ∧ x < 240) := by rintro ⟨-, h⟩; linarith
      have e7 : ¬((240 : Rat) ≤ x ∧ x ≤ 9999) := by rintro ⟨-, h⟩; linarith
      have e8 : ¬(x ≤ (9999 : Rat)) := not_le.mpr hq
      rw [if_neg e1, if_neg e2, if_neg e3, if_neg e4, if_neg e5, if_neg e6, if_neg e7, if_neg e8]
      omega

theorem keepRt_isSome (ov : Option String) :
    (keepRt ov).isSome = (match parse_runtime ov with
      | some v => decide (0 < v)
      | none => false) := by
  cases heq : parse_runtime ov with
  | none =>
    unfold keepRt
    rw [heq]
    rfl
  | some u =>
    unfold keepRt
    rw [heq]
    show (if u ≠ 0 ∧ 0 < u then some u else none).isSome = decide (0 < u)
    by_cases hc : u ≠ 0 ∧ 0 < u
    · rw [if_pos hc]
      simp [hc.2]
    · rw [if_neg hc]
      have h0 : ¬ (0 < u) := fun h => hc ⟨ne_of_gt h, h⟩
      simp [h0]

theorem keepRt_map_le (ov : Option String) :
    ((keepRt ov).map (fun x => decide (x ≤ (9999 : Rat)))).getD false
      = (match parse_runtime ov with
        | some v => decide (0 < v ∧ v ≤ 9999)
        | none => false) := by
  cases heq : parse_runtime ov with
  | none =>
    unfold keepRt
    rw [heq]
    rfl
  | some u =>
    unfold keepRt
    rw [heq]
    show ((if u ≠ 0 ∧ 0 < u then some u else none).map
        (fun x => decide (x ≤ (9999 : Rat)))).getD false = decide (0 < u ∧ u ≤ 9999)
    by_cases hc : u ≠ 0 ∧ 0 < u
    · rw [if_pos hc]
      show decide (u ≤ (9999 : Rat)) = decide (0 < u ∧ u ≤ 9999)
      by_cases hle : u ≤ (9999 : Rat)
      · simp [hle, hc.2]
      · simp [hle]
    · rw [if_neg hc]
      have h0 : ¬ (0 < u) := fun h => hc ⟨ne_of_gt h, h⟩
      show false = decide (0 < u ∧ u ≤ 9999)
      simp [h0]

/-- Counterexample to claim C3 as stated: on a store holding a record with
runtime "10000", the value coerces to the strictly positive number 10000
but exceeds the top edge 9999 of the fixed numpy bin list, so it falls in
no bucket: the bucket counts sum to 1 while two records have strictly
positive runtime. -/
theorem runtime_buckets_cex :
    ¬ ((runtime_hist (get_runtime_distribution demoStore).1.1).sum
      = (demoStore.sets "tmdb:movies").countP
          (fun k => match parse_runtime (demoStore.hashes k "runtime") with
            | some v => decide (0 < v)
            | none => false)) := by decide

/-- Claim C3 (amended): the seven bucket counts sum to the number of
records whose runtime coerces to a strictly positive number that is at
most 9999 (the top edge of the histogram's fixed bin list — a positive
runtime above 9999 falls in no bucket); every record whose runtime is 0,
absent, or non-numeric is excluded from every bucket and from the mean:
the collected runtime list (over which the mean is taken) holds only
strictly positive values, exactly one per record with a strictly positive
coerced runtime. -/
theorem runtime_buckets_sum (st : Store) :
    (runtime_hist (get_runtime_distribution st).1.1).sum
      = (st.sets "tmdb:movies").countP
          (fun k => match parse_runtime (st.hashes k "runtime") with
            | some v => decide (0 < v ∧ v ≤ 9999)
            | none => false) ∧
    (∀ v ∈ (get_runtime_distribution st).1.1, 0 < v) ∧
    (get_runtime_distribution st).1.1.length
      = (st.sets "tmdb:movies").countP
          (fun k => match parse_runtime (st.hashes k "runtime") with
            | some v => decide (0 < v)
            | none => false) := by
  have hchar := get_runtime_distribution_eq st
  have hpos : ∀ v ∈ (get_runtime_distribution st).1.1, 0 < v := by
    intro v hv
    rw [hchar] at hv
    rcases List.mem_filterMap.mp hv with ⟨k, _, hk⟩
    exact keepRt_pos _ v hk
  refine ⟨?_, hpos, ?_⟩
  · rw [runtime_hist_sum _ hpos, hchar, countP_filterMap_eq]
    refine List.countP_congr ?_
    intro k _
    rw [keepRt_map_le (st.hashes k "runtime")]
  · rw [hchar, length_filterMap_eq_countP]
    refine List.countP_congr ?_
    intro k _
    rw [keepRt_isSome (st.hashes k "runtime")]

/-- Witness for the amended claim C3 at the concrete store: the buckets
count exactly the one positive runtime that is at most 9999. -/
theorem runtime_buckets_sum_witness :
    (runtime_hist (get_runtime_distribution demoStore).1.1).sum
      = (demoStore.sets "tmdb:movies").countP
          (fun k => match parse_runtime (demoStore.hashes k "runtime") with
            | some v => decide (0 < v ∧ v ≤ 9999)
            | none => false) :=
  (runtime_buckets_sum demoStore).1

/-! ### Claim C5: the genre distribution -/

/-- The kept genre names of one record's payload: for a parsed payload,
the stripped names (`(g.get("name") or "").strip()`) that are non-empty;
nothing for a falsy or unparseable payload. -/
def recordNames (json_loads : String → Option (List Genre)) (payload : Option String) :
    List String :=
  match payload with
  | none => []
  | some s =>
    if s = "" then []
    else
      match json_loads s with
      | none => []
      | some arr => (arr.map (fun g => pystrip (pyOr g.name ""))).filter (fun n => n ≠ "")

/-- Number of genre occurrences a record's payload holds: the length of
its parsed genre array (0 when falsy or unparseable). -/
def occCount (json_loads : String → Option (List Genre)) (payload : Option String) : Nat :=
  match payload with
  | none => 0
  | some s =>
    if s = "" then 0
    else
      match json_loads s with
      | none => 0
      | some arr => arr.length

/-- Total number of genre occurrences across all records of the store. -/
def totalGenreOccurrences (json_loads : String → Option (List Genre)) (st : Store) : Nat :=
  ((st.sets "tmdb:movies").map (fun k => occCount json_loads (st.hashes k "genres"))).sum

/-- Sum of the per-genre counts of a tally. -/
def countsSum (l : List (String × Nat)) : Nat := (l.map Prod.snd).sum

theorem tally_arr_eq (arr : List Genre) :
    ∀ cs : List (String × Nat),
      arr.foldl (fun cs g =>
        let name := pystrip (pyOr g.name "")
        if name ≠ "" then bump cs name else cs) cs
      = ((arr.map (fun g => pystrip (pyOr g.name ""))).filter (fun n => n ≠ "")).foldl bump cs := by
  induction arr with
  | nil => intro cs; rfl
  | cons g arr ih =>
    intro cs
    simp only [List.foldl_cons, List.map_cons, List.filter_cons]
    by_cases hname : pystrip (pyOr g.name "") ≠ ""
    · rw [if_pos hname, if_pos (decide_eq_true hname)]
      exact ih (bump cs (pystrip (pyOr g.name "")))
    · have hn : pystrip (pyOr g.name "") = "" := not_ne_iff.mp hname
      rw [if_neg hname, if_neg (by simp [hn])]
      exact ih cs

theorem tallyRecord_eq (json_loads : String → Option (List Genre)) (cs : List (String × Nat))
    (payload : Option String) :
    tallyRecord json_loads cs payload = (recordNames json_loads payload).foldl bump cs := by
  cases payload with
  | none => rfl
  | some s =>
    simp only [tallyRecord, recordNames]
    by_cases hs : s = ""
    · rw [if_pos hs, if_pos hs]
      rfl
    · rw [if_neg hs, if_neg hs]
      cases json_loads s with
      | none => rfl
      | some arr => exact tally_arr_eq arr cs

theorem tally_fold_eq (json_loads : String → Option (List Genre))
    (rows : List (String × List (Option String))) :
    ∀ cs : List (String × Nat),
      rows.foldl (fun cs kv => tallyRecord json_loads cs (kv.2.getD 0 none)) cs
      = (rows.flatMap (fun kv => recordNames json_loads (kv.2.getD 0 none))).foldl bump cs := by
  induction rows with
  | nil => intro cs; rfl
  | cons kv rows ih =>
    intro cs
    simp only [List.foldl_cons, List.flatMap_cons, List.foldl_append]
    rw [tallyRecord_eq]
    exact ih _

theorem countsSum_bump (cs : List (String × Nat)) (n : String) :
    countsSum (bump cs n) = countsSum cs + 1 := by
  induction cs with
  | nil => rfl
  | cons q cs ih =>
    unfold bump
    by_cases h : q.1 = n
    · rw [if_pos h]
      show (q.1, q.2 + 1).2 + countsSum cs = (q.2 + countsSum cs) + 1
      simp
      omega
    · rw [if_neg h]
      show q.2 + countsSum (bump cs n) = (q.2 + countsSum cs) + 1
      rw [ih]
      omega

theorem countsSum_foldl_bump (names : List String) :
    ∀ cs : List (String × Nat),
      countsSum (names.foldl bump cs) = countsSum cs + names.length := by
  induction names with
  | nil => intro cs; simp
  | cons n names ih =>
    intro cs
    simp only [List.foldl_cons, List.length_cons]
    rw [ih (bump cs n), countsSum_bump]
    omega

theorem bump_keys (n : String) :
    ∀ cs : List (String × Nat), ∀ p ∈ bump cs n, p.1 = n ∨ ∃ q ∈ cs, p.1 = q.1 := by
  intro cs
  induction cs with
  | nil =>
    intro p hp
    rcases List.mem_singleton.mp hp with h
    rw [h]
    exact Or.inl rfl
  | cons q cs ih =>
    intro p hp
    unfold bump at hp
    by_cases hq : q.1 = n
    · rw [if_pos hq] at hp
      rcases List.mem_cons.mp hp with h | h
      · rw [h]
        exact Or.inl hq
      · exact Or.inr ⟨p, List.mem_cons_of_mem q h, rfl⟩
    · rw [if_neg hq] at hp
      rcases List.mem_cons.mp hp with h | h
      · rw [h]
        exact Or.inr ⟨q, List.mem_cons_self q cs, rfl⟩
      · rcases ih p h with h1 | ⟨r, hr, hr1⟩
        · exact Or.inl h1
        · exact Or.inr ⟨r, List.mem_cons_of_mem q hr, hr1⟩

theorem foldl_bump_keys (names : List String) :
    ∀ cs : List (String × Nat), ∀ p ∈ names.foldl bump cs,
      (∃ q ∈ cs, p.1 = q.1) ∨ p.1 ∈ names := by
  induction names with
  | nil => intro cs p hp; exact Or.inl ⟨p, hp, rfl⟩
  | cons n names ih =>
    intro cs p hp
    simp only [List.foldl_cons] at hp
    rcases ih (bump cs n) p hp with ⟨q, hq, hq1⟩ | h
    · rcases bump_keys n cs q hq with h1 | ⟨r, hr, hr1⟩
      · exact Or.inr (by rw [hq1, h1]; exact List.mem_cons_self n names)
      · exact Or.inl ⟨r, hr, hq1.trans hr1⟩
    · exact Or.inr (List.mem_cons_of_mem n h)

theorem dropWhile_head_not {α : Type} (p : α → Bool) (l : List α)
    (h : l.dropWhile p ≠ []) : ∃ c ∈ l.dropWhile p, ¬ p c = true := by
  induction l with
  | nil => simp at h
  | cons a l ih =>
    rw [List.dropWhile_cons] at h ⊢
    by_cases hp : p a = true
    · rw [if_pos hp] at h ⊢
      exact ih h
    · rw [if_neg hp] at h ⊢
      exact ⟨a, List.mem_cons_self a _, hp⟩

theorem stripChars_has_nonspace (cs : List Char) (h : stripChars cs ≠ []) :
    ∃ c ∈ stripChars cs, ¬ c.isWhitespace = true := by
  unfold stripChars at h ⊢
  have h2 : (cs.dropWhile Char.isWhitespace).reverse.dropWhile Char.isWhitespace ≠ [] := by
    intro habs
    rw [habs] at h
    exact h rfl
  rcases dropWhile_head_not Char.isWhitespace (cs.dropWhile Char.isWhitespace).reverse h2
    with ⟨c, hc, hcw⟩
  exact ⟨c, List.mem_reverse.mpr hc, hcw⟩

theorem pystrip_has_nonspace (s : String) (h : pystrip s ≠ "") :
    ∃ c ∈ (pystrip s).data, ¬ c.isWhitespace = true := by
  have hne : stripChars s.data ≠ [] := by
    intro habs
    apply h
    unfold pystrip
    rw [habs]
  exact stripChars_has_nonspace s.data hne

theorem recordNames_ok (json_loads : String → Option (List Genre)) (payload : Option String) :
    ∀ n ∈ recordNames json_loads payload,
      n ≠ "" ∧ ∃ c ∈ n.data, ¬ c.isWhitespace = true := by
  intro n hn
  unfold recordNames at hn
  split at hn
  next => exact absurd hn (List.not_mem_nil n)
  next s =>
    split at hn
    next => exact absurd hn (List.not_mem_nil n)
    next hs =>
      split at hn
      next => exact absurd hn (List.not_mem_nil n)
      next arr heq =>
        rcases List.mem_filter.mp hn with ⟨hmap, hne⟩
        have hne2 : n ≠ "" := by simpa using hne
        rcases List.mem_map.mp hmap with ⟨g, hg1, hg⟩
        refine ⟨hne2, ?_⟩
        rw [← hg]
        apply pystrip_has_nonspace
        rw [hg]
        exact hne2

theorem recordNames_length_le (json_loads : String → Option (List Genre))
    (payload : Option String) :
    (recordNames json_loads payload).length ≤ occCount json_loads payload := by
  cases payload with
  | none => exact le_refl _
  | some s =>
    simp only [recordNames, occCount]
    by_cases hs : s = ""
    · rw [if_pos hs, if_pos hs]
      exact le_refl _
    · rw [if_neg hs, if_neg hs]
      cases json_loads s with
      | none => exact le_refl _
      | some arr =>
        calc ((arr.map (fun g => pystrip (pyOr g.name ""))).filter (fun n => n ≠ "")).length
            ≤ (arr.map (fun g => pystrip (pyOr g.name ""))).length :=
              List.length_filter_le _ _
          _ = arr.length := List.length_map _ _

theorem pySliceTo_eq_take {α : Type} (l : List α) (n : Int) :
    ∃ k, pySliceTo l n = l.take k := by
  unfold pySliceTo
  split
  · exact ⟨l.length - n.natAbs, rfl⟩
  · exact ⟨n.toNat, rfl⟩

theorem pySliceTo_length_le {α : Type} (l : List α) (n : Int) (h : 0 ≤ n) :
    ((pySliceTo l n).length : Int) ≤ n := by
  unfold pySliceTo
  rw [if_neg (not_lt.mpr h)]
  simp only [List.length_take]
  omega

theorem countsSum_take_le (l : List (String × Nat)) (k : Nat) :
    countsSum (l.take k) ≤ countsSum l := by
  conv_rhs => rw [← List.take_append_drop k l]
  unfold countsSum
  rw [List.map_append, List.sum_append]
  exact Nat.le_add_right _ _

theorem countsSum_perm {l l' : List (String × Nat)} (h : l.Perm l') :
    countsSum l = countsSum l' := (h.map Prod.snd).sum_eq

theorem length_flatMap_eq {α β : Type} (l : List α) (f : α → List β) :
    (l.flatMap f).length = (l.map (fun a => (f a).length)).sum := by
  induction l with
  | nil => rfl
  | cons a l ih => simp [List.flatMap_cons, ih]

theorem flatMap_map_comp {α β γ : Type} (l : List α) (f : α → β) (g : β → List γ) :
    (l.map f).flatMap g = l.flatMap (fun a => g (f a)) := by
  induction l with
  | nil => rfl
  | cons a l ih => simp only [List.map_cons, List.flatMap_cons, ih]

theorem genre_distribution_char (json_loads : String → Option (List Genre)) (st : Store)
    (tn : Int) :
    (get_genre_distribution json_loads st tn).1
      = pySliceTo (sortDesc (((st.sets "tmdb:movies").flatMap
          (fun k => recordNames json_loads (st.hashes k "genres"))).foldl bump [])) tn := by
  show pySliceTo (sortDesc ((iter_movies_fields st ["genres"] 300).1.foldl
      (fun cs kv => tallyRecord json_loads cs (kv.2.getD 0 none)) [])) tn = _
  rw [iter_movies_fields_eq st ["genres"] 300 (by norm_num), tally_fold_eq, flatMap_map_comp]
  congr 2

/-- A concrete JSON decoder used by the C5 witness and counterexample:
the payload "G" parses to two distinct genre objects. -/
def demoLoads : String → Option (List Genre) := fun s =>
  if s = "G" then some [{ name := some "Action" }, { name := some "Drama" }] else none

/-- Counterexample to claim C5 as stated: Python's `items[:top_n]` slice
with the negative `top_n = -1` drops one entry from the end instead of
truncating to at most `top_n` entries, so on a store with two tallied
genres the result still has one entry, which is more than `-1`. -/
theorem genre_distribution_cex :
    ¬ (((get_genre_distribution demoLoads demoStore (-1)).1.length : Int) ≤ -1) := by decide

/-- Claim C5 (amended): for every store, decoder and `top_n`, the genre
distribution contains no genre whose name is blank or whitespace-only
(every returned name is non-empty and has a non-whitespace character),
its per-genre counts sum to at most the total number of genre occurrences
across all records (records whose payload fails to parse contribute
nothing), and the list is sorted in descending order of count; it is
truncated to at most `top_n` entries whenever `top_n` is non-negative
(for a negative `top_n`, Python slice semantics drop `-top_n` entries
from the end instead). -/
theorem genre_distribution_ok (json_loads : String → Option (List Genre)) (st : Store)
    (top_n : Int) :
    (∀ p ∈ (get_genre_distribution json_loads st top_n).1,
        p.1 ≠ "" ∧ ∃ c ∈ p.1.data, ¬ c.isWhitespace = true) ∧
    countsSum (get_genre_distribution json_loads st top_n).1
      ≤ totalGenreOccurrences json_loads st ∧
    List.Pairwise (fun a b : String × Nat => b.2 ≤ a.2)
      (get_genre_distribution json_loads st top_n).1 ∧
    (0 ≤ top_n → ((get_genre_distribution json_loads st top_n).1.length : Int) ≤ top_n) := by
  have hchar := genre_distribution_char json_loads st top_n
  have hperm : (sortDesc (((st.sets "tmdb:movies").flatMap
      (fun k => recordNames json_loads (st.hashes k "genres"))).foldl bump [])).Perm
      (((st.sets "tmdb:movies").flatMap
        (fun k => recordNames json_loads (st.hashes k "genres"))).foldl bump []) :=
    List.perm_insertionSort cntGe _
  obtain ⟨kk, hkk⟩ := pySliceTo_eq_take (sortDesc (((st.sets "tmdb:movies").flatMap
    (fun k => recordNames json_loads (st.hashes k "genres"))).foldl bump [])) top_n
  refine ⟨?_, ?_, ?_, ?_⟩
  · intro p hp
    rw [hchar, hkk] at hp
    have hp3 := hperm.mem_iff.mp (List.mem_of_mem_take hp)
    rcases foldl_bump_keys _ [] p hp3 with ⟨q, hq, -⟩ | h
    · exact absurd hq (List.not_mem_nil q)
    · rcases List.mem_flatMap.mp h with ⟨k, hk, hn⟩
      exact recordNames_ok json_loads (st.hashes k "genres") p.1 hn
  · rw [hchar, hkk]
    calc countsSum ((sortDesc _).take kk)
        ≤ countsSum (sortDesc _) := countsSum_take_le _ _
      _ = countsSum _ := countsSum_perm hperm
      _ = _ + ((st.sets "tmdb:movies").flatMap
            (fun k => recordNames json_loads (st.hashes k "genres"))).length :=
          countsSum_foldl_bump _ []
      _ ≤ totalGenreOccurrences json_loads st := by
          unfold totalGenreOccurrences
          rw [length_flatMap_eq]
          simp only [countsSum, List.map_nil, List.sum_nil, Nat.zero_add]
          exact List.sum_le_sum (fun k _ => recordNames_length_le json_loads _)
  · rw [hchar, hkk]
    exact (List.sorted_insertionSort cntGe _).sublist (List.take_sublist kk _)
  · intro htn
    rw [hchar]
    exact pySliceTo_length_le _ top_n htn

/-- Witness for the amended claim C5 at the concrete store: two tallied
genres, result bounded by 12 and counts bounded by the occurrence total. -/
theorem genre_distribution_ok_witness :
    ((get_genre_distribution demoLoads demoStore 12).1.length : Int) ≤ 12 ∧
    countsSum (get_genre_distribution demoLoads demoStore 12).1
      ≤ totalGenreOccurrences demoLoads demoStore := by
  have h := genre_distribution_ok demoLoads demoStore 12
  exact ⟨h.2.2.2 (by norm_num), h.2.1⟩
